import Mathlib

/-!
Verification of the crop-mapping dataset pipeline.

This file gives a shallow embedding of the two notebooks of the repository:
`cmap_dataset` (filename parsing, directory scan, grouping, completeness
filtering) and `cmap_nn` (temporal sequence building and the point-disjoint
train/validation/test split with class-balanced oversampling), and proves the
specified properties about the embedded definitions.

Python strings are modelled as `List Char`, file contents as `List Nat`.
Python exceptions are modelled with `Except`: an uncaught exception is an
`Except.error` value that propagates through the fold over scanned files.
External library calls (sklearn's `train_test_split`, imblearn's
`RandomOverSampler`, numpy's global RNG) are modelled by executable functions
that realise their documented contracts: a seeded pseudorandom permutation
followed by a deterministic split for `train_test_split`, and
uniform-with-replacement per-class draws from an explicit RNG state for the
oversampler; the RNG state of the (unseeded) oversampler is an explicit
parameter `g` precisely because the source never seeds it.
-/

set_option maxHeartbeats 1000000

abbrev Str := List Char

abbrev Blob := List Nat

/-- The fixed crop enumeration `crop_mapping` shared by both notebooks. -/
def crop_mapping : List (Str × Int) :=
  [("BARLEY".toList, 0), ("CANOLA".toList, 1), ("CORN".toList, 2),
   ("MIXEDWOOD".toList, 3), ("OAT".toList, 4), ("ORCHARD".toList, 5),
   ("PASTURE".toList, 6), ("POTATO".toList, 7), ("SOYBEAN".toList, 8),
   ("SPRING_WHEAT".toList, 9)]

/-- The six required sensor names of the ingestion notebook. -/
def sensors6 : List Str :=
  ["GNDVI".toList, "NDVI".toList, "NDVI45".toList,
   "OSAVI".toList, "PSRI".toList, "RGB".toList]

/-- Index of the last occurrence of `c` in a character list (Python `str.rfind`). -/
def lastIdxOf (c : Char) : Str → Option Nat
  | [] => none
  | x :: xs =>
    match lastIdxOf c xs with
    | some i => some (i + 1)
    | none => if x = c then some 0 else none

/-- Python `os.path.splitext` restricted to a bare filename (no path separator):
split at the last dot, unless everything before that dot is dots. -/
def splitext (l : Str) : Str × Str :=
  match lastIdxOf '.' l with
  | none => (l, [])
  | some i => if (l.take i).all (fun c => c == '.') then (l, []) else (l.take i, l.drop i)

/-- Python `str.split(c)` for a single-character separator. -/
def splitOnChar (c : Char) : Str → List Str
  | [] => [[]]
  | x :: xs =>
    match splitOnChar c xs with
    | [] => [[]]
    | h :: t => if x = c then [] :: h :: t else (x :: h) :: t

/-- Python `"_".join`. -/
def joinU : List Str → Str
  | [] => []
  | [x] => x
  | x :: xs => x ++ '_' :: joinU xs

/-- Numeric value of an ASCII decimal digit string. -/
def natOfDigits (l : Str) : Nat := l.foldl (fun a c => a * 10 + (c.toNat - 48)) 0

/-- All characters are decimal digits and the string is nonempty. -/
def allDigits (l : Str) : Bool := !l.isEmpty && l.all Char.isDigit

/-- Python `int(s)` for decimal strings with an optional sign;
`none` models the `ValueError` raised on any other input. -/
def pyInt (l : Str) : Option Int :=
  match l with
  | '-' :: rest => if allDigits rest then some (-(natOfDigits rest : Int)) else none
  | '+' :: rest => if allDigits rest then some ((natOfDigits rest : Int)) else none
  | _ => if allDigits l then some ((natOfDigits l : Int)) else none

/-- The one uncaught Python exception relevant to the scan: `ValueError` from `int`. -/
inductive PyErr where
  | valueError
  deriving DecidableEq

/-- The record returned by `parse_filename`. -/
structure FileMeta where
  POINT : Int
  DATE : Str
  REGION : Str
  CROP_TYPE : Str
  SENSOR_TYPE : Str
  LABEL : Int
  deriving DecidableEq

instance : Inhabited FileMeta := ⟨⟨0, [], [], [], [], 0⟩⟩

/-- `parse_filename` from `cmap_dataset`: strip the extension, split on `_`,
require at least 6 segments with first segment `POINT`; `int(parts[1])` is
fallible and its `ValueError` is modelled as `Except.error` (the source does
not catch it); segments strictly between index 4 and the last are rejoined
with `_` into the crop type; an unmapped crop type gets label `-1`. -/
def parse_filename (filename : Str) : Except PyErr (Option FileMeta) :=
  let name := (splitext filename).1
  let parts := splitOnChar '_' name
  if parts.length < 6 ∨ parts.headI ≠ "POINT".toList then Except.ok none
  else
    match pyInt (parts.getD 1 []) with
    | none => Except.error PyErr.valueError
    | some pv =>
      let crop := joinU ((parts.drop 4).dropLast)
      Except.ok (some
        { POINT := pv, DATE := parts.getD 2 [], REGION := parts.getD 3 [],
          CROP_TYPE := crop, SENSOR_TYPE := parts.getLastD [],
          LABEL := (crop_mapping.lookup crop).getD (-1) })

/-- A grouped record accumulated by the scan loop: the five metadata fields plus
one optional blob slot per sensor (`None`-initialised, as in the source). -/
structure GroupRec where
  POINT : Int
  DATE : Str
  REGION : Str
  CROP_TYPE : Str
  LABEL : Int
  blobs : List (Str × Option Blob)
  deriving DecidableEq

instance : Inhabited GroupRec := ⟨⟨0, [], [], [], 0, []⟩⟩

/-- The identifier tuple `(POINT, DATE, REGION, CROP_TYPE)` keying a group. -/
abbrev Ident := Int × Str × Str × Str

/-- Diagnostics printed by the scan loop. -/
inductive Diag where
  | readError (file : Str)
  | invalidSensor (tag file : Str)
  deriving DecidableEq

/-- State threaded through the scan loop: the (insertion-ordered) grouped-record
mapping and the printed diagnostics. -/
structure ScanState where
  groups : List (Ident × GroupRec)
  logs : List Diag
  deriving DecidableEq

def initScan : ScanState := ⟨[], []⟩

/-- The filesystem visible to the scan, as a mapping from path to file bytes. -/
abbrev FileSys := List (Str × Blob)

/-- `os.path.join(root, file)`. -/
def joinPath (root file : Str) : Str := root ++ '/' :: file

/-- Opening and fully reading a file; `none` models any read failure. -/
def openRead (fs : FileSys) (path : Str) : Option Blob := fs.lookup path

/-- The fresh group entry created for an identifier seen for the first time:
metadata fields plus one `None` slot per sensor. -/
def newRec (sensors : List Str) (m : FileMeta) : GroupRec :=
  { POINT := m.POINT, DATE := m.DATE, REGION := m.REGION, CROP_TYPE := m.CROP_TYPE,
    LABEL := m.LABEL, blobs := sensors.map (fun s => (s, none)) }

/-- `groups[identifier][sensor_type] = image_bytes`. -/
def storeBlob (g : GroupRec) (tag : Str) (b : Blob) : GroupRec :=
  { g with blobs := g.blobs.map (fun sb => if sb.1 = tag then (sb.1, some b) else sb) }

def identOf (m : FileMeta) : Ident := (m.POINT, m.DATE, m.REGION, m.CROP_TYPE)

/-- Python `str.lower` (ASCII case folding suffices for these filenames). -/
def lowerStr (l : Str) : Str := l.map Char.toLower

/-- One iteration of the scan loop body of `cmap_dataset` for a walked
`(root, file)` pair, in source order: the `.png` guard on the lowercased name,
the `POINT_` guard, `parse_filename` (whose `ValueError` propagates), then the
read — note the source opens `file`, the bare filename, not
`os.path.join(root, file)` — then group creation and sensor-slot update. -/
def processFile (sensors : List Str) (fs : FileSys) (st : ScanState) (rf : Str × Str) :
    Except PyErr ScanState :=
  let file := rf.2
  if !(".png".toList.isSuffixOf (lowerStr file)) then Except.ok st
  else if !("POINT_".toList.isPrefixOf file) then Except.ok st
  else do
    let m? ← parse_filename file
    match m? with
    | none => Except.ok st
    | some m =>
      let idt := identOf m
      match openRead fs file with
      | none => Except.ok { st with logs := st.logs ++ [Diag.readError file] }
      | some bytes =>
        let groups :=
          if (st.groups.lookup idt).isSome then st.groups
          else st.groups ++ [(idt, newRec sensors m)]
        if m.SENSOR_TYPE ∈ sensors then
          let groups2 := groups.map
            (fun kv => if kv.1 = idt then (kv.1, storeBlob kv.2 m.SENSOR_TYPE bytes) else kv)
          Except.ok { st with groups := groups2 }
        else
          Except.ok { groups := groups, logs := st.logs ++ [Diag.invalidSensor m.SENSOR_TYPE file] }

/-- The whole scan: a fold of `processFile` over the walked files, in the
`Except` monad so that an uncaught exception aborts the remaining scan. -/
def scanFiles (sensors : List Str) (fs : FileSys) (walk : List (Str × Str)) :
    Except PyErr ScanState :=
  walk.foldlM (processFile sensors fs) initScan

/-- A group is complete iff every required sensor slot holds a present blob. -/
def isComplete (sensors : List Str) (g : GroupRec) : Bool :=
  sensors.all (fun s => ((g.blobs.lookup s).getD none).isSome)

/-- The completeness filter of `cmap_dataset`. -/
def complete_groups (sensors : List Str) (groups : List (Ident × GroupRec)) :
    List (Ident × GroupRec) :=
  groups.filter (fun kv => isComplete sensors kv.2)

/-- The `(total, complete)` count pair printed by the source
(`Complete records: k (Original: n)`). -/
def reportCounts (sensors : List Str) (groups : List (Ident × GroupRec)) : Nat × Nat :=
  (groups.length, (complete_groups sensors groups).length)

/-- A decoded record on the training side (`cmap_nn`); the decoded images are
an opaque per-sensor payload that sequence building never inspects. -/
structure DecRecord where
  POINT : Int
  DATE : String
  REGION : String
  LABEL : Int
  IMGS : List (Option Blob)
  deriving DecidableEq

instance : Inhabited DecRecord := ⟨⟨0, "", "", 0, []⟩⟩

/-- The ordering `point_recs.sort(key=lambda x: x["DATE"])` sorts by: date
tokens compare as strings. -/
def dateLe (a b : DecRecord) : Prop := a.DATE ≤ b.DATE

instance : DecidableRel dateLe := fun a b => inferInstanceAs (Decidable (a.DATE ≤ b.DATE))

instance : IsTotal DecRecord dateLe := ⟨fun a b => le_total a.DATE b.DATE⟩

instance : IsTrans DecRecord dateLe := ⟨fun _ _ _ h1 h2 => le_trans h1 h2⟩

/-- Sort a point's records ascending by date token (Python's stable
`list.sort`, i.e. insertion behind equal keys). -/
def sortByDate (l : List DecRecord) : List DecRecord := l.insertionSort dateLe

/-- The key set of the `defaultdict` grouping. Python iterates the keys in
first-occurrence order while `dedup` keeps last occurrences; the two orders
list the same duplicate-free point ids, and every property proved below about
the grouping is invariant under the enumeration order of the keys. -/
def pointKeys (records : List DecRecord) : List Int := (records.map (·.POINT)).dedup

/-- The records accumulated for a point by the grouping pass. -/
def groupOf (records : List DecRecord) (p : Int) : List DecRecord :=
  records.filter (fun r => r.POINT == p)

/-- `len({r["LABEL"] for r in point_recs}) == 1`. -/
def uniformLabels (l : List DecRecord) : Bool := (l.map (·.LABEL)).dedup.length == 1

/-- The sequences the `create_sequences` loop body produces for one point:
sort the group by date, drop it entirely unless all labels agree, otherwise
slide a width-`L` stride-1 window (`range(len - L + 1)` is empty when the
group is shorter than `L`, matching Python's empty range on a negative bound). -/
def seqsForPoint (L : Nat) (records : List DecRecord) (p : Int) : List (List DecRecord) :=
  let g := sortByDate (groupOf records p)
  if uniformLabels g then (List.range (g.length + 1 - L)).map (fun i => (g.drop i).take L)
  else []

/-- The matching labels (`[label] * (len - L + 1)`) for one point. -/
def labsForPoint (L : Nat) (records : List DecRecord) (p : Int) : List Int :=
  let g := sortByDate (groupOf records p)
  if uniformLabels g then List.replicate (g.length + 1 - L) g.headI.LABEL else []

/-- `create_sequences` from `cmap_nn`: group by point, then per point sort by
date, reject mixed-label groups, and window. -/
def create_sequences (L : Nat) (records : List DecRecord) :
    List (List DecRecord) × List Int :=
  ((pointKeys records).flatMap (seqsForPoint L records),
   (pointKeys records).flatMap (labsForPoint L records))

/-- A 64-bit linear congruential step, the pseudorandom generator used by the
models of the external RNG-driven collaborators. -/
def lcgNext (s : Nat) : Nat := (s * 6364136223846793005 + 1442695040888963407) % (2 ^ 64)

/-- Remove and return the element at an index. -/
def pickAt {α : Type} : Nat → List α → Option (α × List α)
  | _, [] => none
  | 0, x :: xs => some (x, xs)
  | n + 1, x :: xs => (pickAt n xs).map (fun yys => (yys.1, x :: yys.2))

/-- Fisher–Yates-style selection driven by the LCG stream. -/
def shuffleGo {α : Type} : Nat → Nat → List α → List α
  | 0, _, xs => xs
  | fuel + 1, s, xs =>
    match pickAt (s % xs.length) xs with
    | none => xs
    | some yys => yys.1 :: shuffleGo fuel (lcgNext s) yys.2

/-- Model of the seeded pseudorandom permutation an sklearn `random_state`
produces: a deterministic function of the seed and the input list. -/
def shuffle {α : Type} (seed : Nat) (xs : List α) : List α :=
  shuffleGo xs.length (lcgNext seed) xs

/-- `ceil(num/den * n)` in pure natural arithmetic (for `den > 0`). -/
def ceilFrac (num den n : Nat) : Nat := (num * n + den - 1) / den

/-- Model of sklearn `train_test_split(xs, test_size, random_state)`: permute
the input with the seeded permutation, hold out the first
`ceil(test_size * n)` elements as the test side, return `(train, test)`. The
held-out fraction `test_size` is carried as the rational `tnum / tden`. -/
def train_test_split {α : Type} (xs : List α) (tnum tden : Nat) (seed : Nat) :
    List α × List α :=
  let nTest := ceilFrac tnum tden xs.length
  let perm := shuffle seed xs
  (perm.drop nTest, perm.take nTest)

/-- The point partitioning of `split_dataset`: dedupe the per-sequence point
ids (`list(set(points))`), split off the test points with seed 42, then split
the remainder into train and validation with held-out fraction
`val_size / (1 - test_size)` — as a rational,
`(vnum * tden) / (vden * (tden - tnum))` — again with seed 42.
Returns (train, val, test). -/
def split_points (tnum tden vnum vden : Nat) (points : List Int) :
    List Int × List Int × List Int :=
  let uniquePoints := points.dedup
  let tp := train_test_split uniquePoints tnum tden 42
  let tv := train_test_split tp.1 (vnum * tden) (vden * (tden - tnum)) 42
  (tv.1, tv.2, tp.2)

def insertAsc (x : Int) : List Int → List Int
  | [] => [x]
  | y :: ys => if x ≤ y then x :: y :: ys else y :: insertAsc x ys

def sortAsc (l : List Int) : List Int := l.foldr insertAsc []

/-- The distinct classes of a label list in ascending label order: imblearn
builds its per-class count dictionary with `np.unique(y, return_counts=True)`
(`_count_class_sample`), so the dictionary's keys are the sorted distinct
labels. -/
def classesOf (ys : List Int) : List Int := sortAsc ys.dedup

/-- The majority class count `max(target_stats.values())`. -/
def majorityCount (ys : List Int) : Nat :=
  (classesOf ys).foldl (fun m c => max m (ys.count c)) 0

/-- `min(target_stats, key=target_stats.get)`: the class of least count; on
tied counts Python's `min` keeps the earliest key of the np.unique-ordered
dictionary, i.e. the smallest tied label. -/
def minorityClass (ys : List Int) : Int :=
  match classesOf ys with
  | [] => 0
  | c :: cs => cs.foldl (fun best c2 => if ys.count c2 < ys.count best then c2 else best) c

/-- The classes targeted by `sampling_strategy='not minority'`: every class
except the minority one, iterated in ascending class order (imblearn sorts its
sampling-strategy dictionary). -/
def targetClasses (ys : List Int) : List Int :=
  sortAsc ((classesOf ys).filter (fun c => c != minorityClass ys))

/-- One uniform draw from a list, driven by the RNG state. -/
def drawOne (s : Nat) (xs : List Nat) : Nat := xs.getD (s % xs.length) 0

/-- `k` uniform draws with replacement, threading the RNG state. -/
def drawMany (s : Nat) (k : Nat) (xs : List Nat) : List Nat × Nat :=
  match k with
  | 0 => ([], s)
  | k' + 1 =>
    let d := drawOne s xs
    let r := drawMany (lcgNext s) k' xs
    (d :: r.1, r.2)

/-- The training indices carrying label `c` (`np.flatnonzero(y == c)` mapped
back through the index column `X`). -/
def classIdxs (idxs : List Nat) (ys : List Int) (c : Int) : List Nat :=
  (idxs.zip ys).filterMap (fun iy => if iy.2 = c then some iy.1 else none)

/-- The extra resampled indices: per targeted class, `M - count` uniform draws
with replacement from that class's indices, RNG state threaded class to class. -/
def extrasFor (idxs : List Nat) (ys : List Int) (M : Nat) : Nat → List Int → List Nat
  | _, [] => []
  | s, c :: cs =>
    let r := drawMany s (M - ys.count c) (classIdxs idxs ys c)
    r.1 ++ extrasFor idxs ys M r.2 cs

/-- Model of `RandomOverSampler(sampling_strategy='not minority').fit_resample`
on the column of training indices: the original rows followed by the extra
per-class draws. `g` is the state of the global (unseeded) RNG the library
falls back to because the source passes no `random_state`. -/
def oversampleIndices (g : Nat) (idxs : List Nat) (ys : List Int) : List Nat :=
  idxs ++ extrasFor idxs ys (majorityCount ys) g (targetClasses ys)

/-- `seq[0]["POINT"]`. -/
def seqPoint (s : List DecRecord) : Int := s.headI.POINT

/-- The training indices `[i for i, p in enumerate(points) if p in train_points]`. -/
def trainIndices (tnum tden vnum vden : Nat) (sequences : List (List DecRecord)) : List Nat :=
  let points := sequences.map seqPoint
  (List.range sequences.length).filter
    (fun i => decide (points.getD i 0 ∈ (split_points tnum tden vnum vden points).1))

/-- The oversampled index multiset of one `split_dataset` invocation with
global RNG state `g`. -/
def resampledIndices (g : Nat) (tnum tden vnum vden : Nat)
    (sequences : List (List DecRecord)) (labels : List Int) : List Nat :=
  let ti := trainIndices tnum tden vnum vden sequences
  oversampleIndices g ti (ti.map (fun i => labels.getD i 0))

/-- `split_dataset` from `cmap_nn`: partition the unique points with the two
seeded splits, assign every sequence to its point's partition, oversample only
the train partition, return the six parallel lists. -/
def split_dataset (g : Nat) (tnum tden vnum vden : Nat)
    (sequences : List (List DecRecord)) (labels : List Int) :
    List (List DecRecord) × List Int × List (List DecRecord) × List Int ×
      List (List DecRecord) × List Int :=
  let points := sequences.map seqPoint
  let parts := split_points tnum tden vnum vden points
  let valIdx := (List.range sequences.length).filter
    (fun i => decide (points.getD i 0 ∈ parts.2.1))
  let testIdx := (List.range sequences.length).filter
    (fun i => decide (points.getD i 0 ∈ parts.2.2))
  let resampled := resampledIndices g tnum tden vnum vden sequences labels
  (resampled.map (fun i => sequences.getD i []),
   resampled.map (fun i => labels.getD i 0),
   valIdx.map (fun i => sequences.getD i []),
   valIdx.map (fun i => labels.getD i 0),
   testIdx.map (fun i => sequences.getD i []),
   testIdx.map (fun i => labels.getD i 0))

/-! ### Scan-loop claims -/

/-- Projection used to observe a scan outcome: `none` when the scan aborted
with an exception, otherwise the number of groups collected. -/
def groupsLenOf : Except PyErr ScanState → Option Nat
  | Except.error _ => none
  | Except.ok st => some st.groups.length

def fileBad7 : Str := "POINT_ABC_20170601_R1_CORN_RGB.png".toList

def fileOk7 : Str := "POINT_12_20170601_R1_CORN_RGB.png".toList

def root7 : Str := "../dataset/dataset_ca_17/RGB".toList

def fs7 : FileSys := [(fileOk7, [7, 7])]

/-- C7: a filename whose stem has six segments and first segment `POINT` but a
non-numeric second segment makes `int(parts[1])` raise an uncaught
`ValueError`, aborting the whole scan — the file after it is never processed —
whereas the same scan without the malformed file collects a group. -/
theorem scan_aborts_on_nonnumeric_point_id :
    scanFiles sensors6 fs7 [(root7, fileBad7), (root7, fileOk7)] = Except.error PyErr.valueError
    ∧ groupsLenOf (scanFiles sensors6 fs7 [(root7, fileOk7)]) = some 1 := by
  exact ⟨rfl, rfl⟩

def fname9 : Str := "POINT_3_20170601_R1_CORN_RGB.png".toList

def root9 : Str := "../dataset/dataset_ca_17/RGB".toList

def fs9 : FileSys := [(joinPath root9 fname9, [1, 2, 3])]

/-- C9: the scan opens the bare filename instead of joining it onto the walked
directory: with the file's bytes present at its location in the scanned tree
(and nothing at the bare name), the read fails, a read diagnostic is emitted,
and no blob (indeed no group at all) is stored for the file. -/
theorem scan_reads_cwd_not_tree_location :
    openRead fs9 (joinPath root9 fname9) = some [1, 2, 3]
    ∧ scanFiles sensors6 fs9 [(root9, fname9)] =
        Except.ok { groups := [], logs := [Diag.readError fname9] } := by
  exact ⟨rfl, rfl⟩

/-- C10: a file whose lowercased name does not end in `.png`, or whose name
does not start with `POINT_`, is skipped before parsing or reading: processing
it returns the scan state (groups and diagnostics) unchanged. -/
theorem scan_skips_nonimage_files (sensors : List Str) (fs : FileSys) (st : ScanState)
    (root file : Str)
    (h : ¬ (".png".toList.isSuffixOf (lowerStr file) = true)
      ∨ ¬ ("POINT_".toList.isPrefixOf file = true)) :
    processFile sensors fs st (root, file) = Except.ok st := by
  unfold processFile
  dsimp only
  rcases h with h | h
  · rw [Bool.not_eq_true] at h
    rw [h]
    exact if_pos rfl
  · rw [Bool.not_eq_true] at h
    by_cases hx : ".png".toList.isSuffixOf (lowerStr file) = true
    · rw [hx, h, if_neg (by decide)]
      exact if_pos rfl
    · rw [Bool.not_eq_true] at hx
      rw [hx]
      exact if_pos rfl

/-- Witness for C10 at a concrete non-PNG filename. -/
theorem scan_skips_nonimage_files_witness :
    (¬ (".png".toList.isSuffixOf (lowerStr "POINT_1_D_R_CORN_RGB.jpeg".toList) = true)
      ∨ ¬ ("POINT_".toList.isPrefixOf "POINT_1_D_R_CORN_RGB.jpeg".toList = true))
    ∧ processFile sensors6 fs7 initScan (root7, "POINT_1_D_R_CORN_RGB.jpeg".toList)
        = Except.ok initScan := by
  refine ⟨Or.inl (by decide), ?_⟩
  exact scan_skips_nonimage_files sensors6 fs7 initScan root7 _ (Or.inl (by decide))

/-- C8: the completeness filter returns exactly the complete sub-mapping: with
`k` of the `n` groups complete it has length `k`, every retained record has a
present blob for every required sensor, no complete group is omitted, the
result is a sub-mapping (sublist) of the input, and the reported count pair is
`(total, complete) = (n, k)`. -/
theorem complete_groups_exact (sensors : List Str) (groups : List (Ident × GroupRec))
    (n k : Nat) (hn : groups.length = n)
    (hk : groups.countP (fun kv => isComplete sensors kv.2) = k) :
    (complete_groups sensors groups).length = k
    ∧ (∀ kv ∈ complete_groups sensors groups, ∀ s ∈ sensors,
        ((kv.2.blobs.lookup s).getD none).isSome = true)
    ∧ (∀ kv ∈ groups, isComplete sensors kv.2 = true → kv ∈ complete_groups sensors groups)
    ∧ (complete_groups sensors groups).Sublist groups
    ∧ reportCounts sensors groups = (n, k) := by
  subst hn hk
  refine ⟨?_, ?_, ?_, List.filter_sublist groups, ?_⟩
  · rw [complete_groups, ← List.countP_eq_length_filter]
  · intro kv hkv s hs
    rcases List.mem_filter.mp hkv with ⟨_, hc⟩
    exact List.all_eq_true.mp hc s hs
  · intro kv hkv hc
    exact List.mem_filter.mpr ⟨hkv, hc⟩
  · rw [reportCounts, complete_groups, ← List.countP_eq_length_filter]

def groupsC8 : List (Ident × GroupRec) :=
  [((1, "D".toList, "R".toList, "CORN".toList),
    { POINT := 1, DATE := "D".toList, REGION := "R".toList, CROP_TYPE := "CORN".toList,
      LABEL := 2, blobs := [("RGB".toList, some [1]), ("NDVI".toList, some [2])] }),
   ((2, "D".toList, "R".toList, "OAT".toList),
    { POINT := 2, DATE := "D".toList, REGION := "R".toList, CROP_TYPE := "OAT".toList,
      LABEL := 4, blobs := [("RGB".toList, some [1]), ("NDVI".toList, none)] })]

/-- Witness for C8: two groups, one complete, against two required sensors. -/
theorem complete_groups_exact_witness :
    groupsC8.length = 2
    ∧ groupsC8.countP (fun kv => isComplete ["RGB".toList, "NDVI".toList] kv.2) = 1
    ∧ (complete_groups ["RGB".toList, "NDVI".toList] groupsC8).length = 1
    ∧ reportCounts ["RGB".toList, "NDVI".toList] groupsC8 = (2, 1) := by
  have h := complete_groups_exact ["RGB".toList, "NDVI".toList] groupsC8 2 1
    (by decide) (by decide)
  exact ⟨by decide, by decide, h.1, h.2.2.2.2⟩

/-! ### Filename parser round trip (C6) -/

theorem lastIdxOf_eq_none (c : Char) (l : Str) (h : c ∉ l) : lastIdxOf c l = none := by
  induction l with
  | nil => rfl
  | cons x xs ih =>
    have hx : x ≠ c := fun he => h (by rw [← he]; exact List.mem_cons_self x xs)
    have h2 : c ∉ xs := fun hc => h (List.mem_cons_of_mem x hc)
    simp [lastIdxOf, ih h2, hx]

theorem lastIdxOf_append_last (c : Char) (a b : Str) (hb : c ∉ b) :
    lastIdxOf c (a ++ c :: b) = some a.length := by
  induction a with
  | nil => simp [lastIdxOf, lastIdxOf_eq_none c b hb]
  | cons x xs ih => simp [lastIdxOf, ih]

theorem splitext_concat (stem ext : Str) (hx : '.' ∉ ext)
    (hnd : stem.all (fun c => c == '.') = false) :
    splitext (stem ++ '.' :: ext) = (stem, '.' :: ext) := by
  unfold splitext
  rw [lastIdxOf_append_last '.' stem ext hx]
  dsimp only
  rw [List.take_left, List.drop_left, hnd]
  rw [if_neg (by decide)]

theorem splitOnChar_ne_nil (c : Char) (l : Str) : splitOnChar c l ≠ [] := by
  cases l with
  | nil => simp [splitOnChar]
  | cons x xs =>
    rcases hxs : splitOnChar c xs with _ | ⟨hd, tl⟩
    · simp [splitOnChar, hxs]
    · by_cases hc : x = c <;> simp [splitOnChar, hxs, hc]

theorem splitOnChar_append (c : Char) (a b : Str) (ha : c ∉ a) :
    splitOnChar c (a ++ c :: b) = a :: splitOnChar c b := by
  induction a with
  | nil =>
    rcases hb : splitOnChar c b with _ | ⟨hd, tl⟩
    · exact absurd hb (splitOnChar_ne_nil c b)
    · simp only [List.nil_append]
      simp [splitOnChar, hb]
  | cons x xs ih =>
    have hx : x ≠ c := fun he => ha (by rw [← he]; exact List.mem_cons_self x xs)
    have h2 : c ∉ xs := fun hc => ha (List.mem_cons_of_mem x hc)
    show splitOnChar c (x :: (xs ++ c :: b)) = (x :: xs) :: splitOnChar c b
    simp [splitOnChar, ih h2, hx]

theorem splitOnChar_of_not_mem (c : Char) (a : Str) (ha : c ∉ a) : splitOnChar c a = [a] := by
  induction a with
  | nil => rfl
  | cons x xs ih =>
    have hx : x ≠ c := fun he => ha (by rw [← he]; exact List.mem_cons_self x xs)
    have h2 : c ∉ xs := fun hc => ha (List.mem_cons_of_mem x hc)
    show splitOnChar c (x :: xs) = [x :: xs]
    simp [splitOnChar, ih h2, hx]

theorem splitOnChar_joinU (csegs : List Str) (b : Str) (h : ∀ cs ∈ csegs, '_' ∉ cs)
    (hne : csegs ≠ []) :
    splitOnChar '_' (joinU csegs ++ '_' :: b) = csegs ++ splitOnChar '_' b := by
  induction csegs with
  | nil => exact absurd rfl hne
  | cons x xs ih =>
    cases xs with
    | nil =>
      have hx := h x (List.mem_cons_self x [])
      simp [joinU, splitOnChar_append '_' x b hx]
    | cons y ys =>
      have hx := h x (List.mem_cons_self x (y :: ys))
      have hrest : ∀ cs ∈ y :: ys, '_' ∉ cs := fun cs hcs => h cs (List.mem_cons_of_mem x hcs)
      have hj : joinU (x :: y :: ys) = x ++ '_' :: joinU (y :: ys) := rfl
      rw [hj, List.append_assoc, List.cons_append]
      rw [splitOnChar_append '_' x _ hx]
      rw [ih hrest (by simp)]
      rfl

/-- The stem of a well-formed observation filename, assembled from components. -/
def mkStem (p d r : Str) (csegs : List Str) (s : Str) : Str :=
  "POINT".toList ++ '_' :: p ++ '_' :: d ++ '_' :: r ++ '_' :: joinU csegs ++ '_' :: s

/-- A well-formed observation filename `POINT_<p>_<d>_<r>_<c>_<s>.<ext>`,
where the crop type is the underscore-join of `csegs`. -/
def mkFilename (p d r : Str) (csegs : List Str) (s ext : Str) : Str :=
  mkStem p d r csegs s ++ '.' :: ext

theorem splitOnChar_mkStem (p d r : Str) (csegs : List Str) (s : Str)
    (hp : '_' ∉ p) (hd : '_' ∉ d) (hr : '_' ∉ r) (hs : '_' ∉ s)
    (hcs : ∀ cs ∈ csegs, '_' ∉ cs) (hne : csegs ≠ []) :
    splitOnChar '_' (mkStem p d r csegs s) =
      "POINT".toList :: p :: d :: r :: (csegs ++ [s]) := by
  unfold mkStem
  simp only [List.append_assoc, List.cons_append]
  rw [splitOnChar_append '_' "POINT".toList _ (by decide)]
  rw [splitOnChar_append '_' p _ hp]
  rw [splitOnChar_append '_' d _ hd]
  rw [splitOnChar_append '_' r _ hr]
  rw [splitOnChar_joinU csegs s hcs hne]
  rw [splitOnChar_of_not_mem '_' s hs]

theorem mkStem_all_dots_false (p d r : Str) (csegs : List Str) (s : Str) :
    (mkStem p d r csegs s).all (fun c => c == '.') = false := by
  have hPmem : 'P' ∈ mkStem p d r csegs s := by
    unfold mkStem
    exact List.mem_append_left _ (List.mem_append_left _ (List.mem_append_left _
      (List.mem_append_left _ (List.mem_append_left _ (by decide)))))
  rw [Bool.eq_false_iff]
  intro hT
  exact absurd (List.all_eq_true.mp hT 'P' hPmem) (by decide)

/-- C6: a valid filename `POINT_<p>_<d>_<r>_<c>_<s>.<ext>` with numeric point
id and at least six underscore-separated stem segments parses back to exactly
its components, with a multi-segment crop type rejoined with `_` and the label
looked up in the fixed crop enumeration, defaulting to `-1` when the crop type
is unrecognized; the enumeration runs BARLEY = 0 … SPRING_WHEAT = 9. -/
theorem parse_filename_roundtrip (p d r s ext : Str) (csegs : List Str) (pv : Int)
    (hpv : pyInt p = some pv) (hp : '_' ∉ p) (hd : '_' ∉ d) (hr : '_' ∉ r) (hs : '_' ∉ s)
    (hcs : ∀ cs ∈ csegs, '_' ∉ cs) (hne : csegs ≠ []) (hext : '.' ∉ ext) :
    parse_filename (mkFilename p d r csegs s ext) = Except.ok (some
      { POINT := pv, DATE := d, REGION := r, CROP_TYPE := joinU csegs,
        SENSOR_TYPE := s, LABEL := (crop_mapping.lookup (joinU csegs)).getD (-1) })
    ∧ crop_mapping.lookup "BARLEY".toList = some 0
    ∧ crop_mapping.lookup "SPRING_WHEAT".toList = some 9 := by
  refine ⟨?_, by decide, by decide⟩
  show parse_filename (mkStem p d r csegs s ++ '.' :: ext) = _
  unfold parse_filename
  rw [splitext_concat _ _ hext (mkStem_all_dots_false p d r csegs s)]
  dsimp only
  rw [splitOnChar_mkStem p d r csegs s hp hd hr hs hcs hne]
  have hlen : 0 < csegs.length := List.length_pos.mpr hne
  have hcond : ¬(("POINT".toList :: p :: d :: r :: (csegs ++ [s])).length < 6
      ∨ ("POINT".toList :: p :: d :: r :: (csegs ++ [s])).headI ≠ "POINT".toList) := by
    rintro (hlt | hne2)
    · simp only [List.length_cons, List.length_append, List.length_singleton] at hlt
      omega
    · exact hne2 rfl
  rw [if_neg hcond]
  simp only [List.getD_cons_succ, List.getD_cons_zero]
  rw [hpv]
  dsimp only
  have hdrop : ("POINT".toList :: p :: d :: r :: (csegs ++ [s])).drop 4 = csegs ++ [s] := rfl
  have hlast : ("POINT".toList :: p :: d :: r :: (csegs ++ [s])).getLastD [] = s := by
    rw [show "POINT".toList :: p :: d :: r :: (csegs ++ [s])
          = ("POINT".toList :: p :: d :: r :: csegs) ++ [s] by simp]
    rw [List.getLastD_eq_getLast?, List.getLast?_concat]
    rfl
  rw [hdrop, List.dropLast_concat, hlast]

/-- Witness for C6 at the filename `POINT_12_20170601_CA_SPRING_WHEAT_RGB.png`. -/
theorem parse_filename_roundtrip_witness :
    pyInt "12".toList = some 12
    ∧ '_' ∉ "12".toList ∧ '_' ∉ "20170601".toList ∧ '_' ∉ "CA".toList ∧ '_' ∉ "RGB".toList
    ∧ (∀ cs ∈ ["SPRING".toList, "WHEAT".toList], '_' ∉ cs)
    ∧ ["SPRING".toList, "WHEAT".toList] ≠ ([] : List Str)
    ∧ '.' ∉ "png".toList
    ∧ parse_filename (mkFilename "12".toList "20170601".toList "CA".toList
        ["SPRING".toList, "WHEAT".toList] "RGB".toList "png".toList) = Except.ok (some
      { POINT := 12, DATE := "20170601".toList, REGION := "CA".toList,
        CROP_TYPE := joinU ["SPRING".toList, "WHEAT".toList], SENSOR_TYPE := "RGB".toList,
        LABEL := (crop_mapping.lookup (joinU ["SPRING".toList, "WHEAT".toList])).getD (-1) }) := by
  refine ⟨by decide, by decide, by decide, by decide, by decide, by decide, by decide,
    by decide, ?_⟩
  exact (parse_filename_roundtrip "12".toList "20170601".toList "CA".toList "RGB".toList
    "png".toList ["SPRING".toList, "WHEAT".toList] 12 (by decide) (by decide) (by decide)
    (by decide) (by decide) (by decide) (by decide) (by decide)).1

/-! ### Sequence builder (C4, C5) -/

theorem sortByDate_perm (l : List DecRecord) : List.Perm (sortByDate l) l :=
  List.perm_insertionSort dateLe l

theorem sortByDate_sorted (l : List DecRecord) : List.Sorted dateLe (sortByDate l) :=
  List.sorted_insertionSort dateLe l

theorem mem_groupOf (records : List DecRecord) (p : Int) (r : DecRecord) :
    r ∈ groupOf records p ↔ r ∈ records ∧ r.POINT = p := by
  simp [groupOf, List.mem_filter]

theorem mem_pointKeys (records : List DecRecord) (p : Int) :
    p ∈ pointKeys records ↔ ∃ r ∈ records, r.POINT = p := by
  simp [pointKeys, List.mem_dedup, List.mem_map]

theorem uniformLabels_sortByDate (records : List DecRecord) (p : Int) :
    uniformLabels (sortByDate (groupOf records p)) = uniformLabels (groupOf records p) := by
  unfold uniformLabels
  rw [List.Perm.length_eq (List.Perm.dedup (List.Perm.map _ (sortByDate_perm _)))]

theorem seqsForPoint_mem_structure (L : Nat) (records : List DecRecord) (p : Int)
    (s : List DecRecord) (hs : s ∈ seqsForPoint L records p) :
    uniformLabels (sortByDate (groupOf records p)) = true
    ∧ ∃ i, i + L ≤ (groupOf records p).length
        ∧ s = ((sortByDate (groupOf records p)).drop i).take L := by
  unfold seqsForPoint at hs
  by_cases hu : uniformLabels (sortByDate (groupOf records p)) = true
  · refine ⟨hu, ?_⟩
    rw [if_pos hu] at hs
    rcases List.mem_map.mp hs with ⟨i, hi, hw⟩
    have hlen : (sortByDate (groupOf records p)).length = (groupOf records p).length :=
      List.Perm.length_eq (sortByDate_perm _)
    have hir := List.mem_range.mp hi
    exact ⟨i, by omega, hw.symm⟩
  · rw [if_neg hu] at hs
    cases hs

theorem headI_mem_of_ne_nil (l : List DecRecord) (h : l ≠ []) : l.headI ∈ l := by
  cases l with
  | nil => exact absurd rfl h
  | cons x xs => exact List.mem_cons_self x xs

theorem mem_of_mem_seqsForPoint (L : Nat) (records : List DecRecord) (p : Int)
    (s : List DecRecord) (r : DecRecord) (hs : s ∈ seqsForPoint L records p) (hr : r ∈ s) :
    r ∈ records ∧ r.POINT = p := by
  obtain ⟨hu, i, hi, hw⟩ := seqsForPoint_mem_structure L records p s hs
  subst hw
  have h1 : r ∈ sortByDate (groupOf records p) :=
    List.drop_subset i _ (List.take_subset L _ hr)
  exact (mem_groupOf records p r).mp ((sortByDate_perm _).subset h1)

theorem seqsForPoint_head_len (L : Nat) (records : List DecRecord) (p : Int)
    (hL : 1 ≤ L) (s : List DecRecord) (hs : s ∈ seqsForPoint L records p) :
    seqPoint s = p ∧ s.length = L := by
  obtain ⟨hu, i, hi, hw⟩ := seqsForPoint_mem_structure L records p s hs
  have hlen : (sortByDate (groupOf records p)).length = (groupOf records p).length :=
    List.Perm.length_eq (sortByDate_perm _)
  have hslen : s.length = L := by
    rw [hw, List.length_take, List.length_drop, hlen]
    omega
  have hne : s ≠ [] := by
    intro h0
    rw [h0] at hslen
    simp at hslen
    omega
  have hhead : s.headI ∈ s := headI_mem_of_ne_nil s hne
  have := mem_of_mem_seqsForPoint L records p s s.headI hs hhead
  exact ⟨this.2, hslen⟩

theorem filter_flatMap_eq_nil {α β : Type} (keys : List α) (f : α → List β) (pred : β → Bool)
    (h : ∀ q ∈ keys, (f q).filter pred = []) : (keys.flatMap f).filter pred = [] := by
  induction keys with
  | nil => rfl
  | cons q t ih =>
    rw [List.flatMap_cons, List.filter_append, h q (List.mem_cons_self q t),
      ih (fun q' h' => h q' (List.mem_cons_of_mem q h'))]
    rfl

theorem filter_flatMap_single {α β : Type} (keys : List α) (f : α → List β)
    (pred : β → Bool) (p : α) (hnd : keys.Nodup) (hp : p ∈ keys)
    (hothers : ∀ q ∈ keys, q ≠ p → (f q).filter pred = [])
    (hself : (f p).filter pred = f p) :
    (keys.flatMap f).filter pred = f p := by
  induction keys with
  | nil => cases hp
  | cons q t ih =>
    rw [List.flatMap_cons, List.filter_append]
    rcases List.mem_cons.mp hp with hqp | hpt
    · subst hqp
      rw [hself]
      have hrest : ∀ q' ∈ t, (f q').filter pred = [] := by
        intro q' hq'
        have hne : q' ≠ p := fun he => (List.nodup_cons.mp hnd).1 (he ▸ hq')
        exact hothers q' (List.mem_cons_of_mem _ hq') hne
      rw [filter_flatMap_eq_nil t f pred hrest, List.append_nil]
    · have hqne : q ≠ p := fun he => (List.nodup_cons.mp hnd).1 (he ▸ hpt)
      rw [hothers q (List.mem_cons_self q t) hqne]
      rw [ih (List.nodup_cons.mp hnd).2 hpt
        (fun q' h' hne => hothers q' (List.mem_cons_of_mem q h') hne)]
      rfl

/-- C4: a point whose records all share one label, with `m` records, yields
exactly `m + 1 - L` sequences (Nat truncation realises `max(0, m - L + 1)`),
each of length exactly `L`, each a contiguous stride-1 window of the point's
records sorted ascending by date token; the sorted list is a date-sorted
permutation of the point's group. -/
theorem create_sequences_window_count (L : Nat) (records : List DecRecord) (p : Int)
    (hL : 1 ≤ L)
    (huni : ((groupOf records p).map (fun r => r.LABEL)).dedup.length = 1) :
    ((create_sequences L records).1.filter (fun s => seqPoint s == p)).length
        = (groupOf records p).length + 1 - L
    ∧ (∀ s ∈ (create_sequences L records).1.filter (fun s => seqPoint s == p),
        s.length = L ∧ ∃ i, i + L ≤ (groupOf records p).length
          ∧ s = ((sortByDate (groupOf records p)).drop i).take L)
    ∧ List.Perm (sortByDate (groupOf records p)) (groupOf records p)
    ∧ List.Sorted dateLe (sortByDate (groupOf records p)) := by
  have hu : uniformLabels (groupOf records p) = true := by
    unfold uniformLabels
    rw [huni]
    rfl
  have hus : uniformLabels (sortByDate (groupOf records p)) = true := by
    rw [uniformLabels_sortByDate]
    exact hu
  have hg_ne : groupOf records p ≠ [] := by
    intro h0
    rw [h0] at huni
    simp at huni
  have hp : p ∈ pointKeys records := by
    rcases List.exists_mem_of_ne_nil _ hg_ne with ⟨r, hr⟩
    rcases (mem_groupOf records p r).mp hr with ⟨hr1, hr2⟩
    exact (mem_pointKeys records p).mpr ⟨r, hr1, hr2⟩
  have hmain : (create_sequences L records).1.filter (fun s => seqPoint s == p)
      = seqsForPoint L records p := by
    show ((pointKeys records).flatMap (seqsForPoint L records)).filter _ = _
    refine filter_flatMap_single (pointKeys records) (seqsForPoint L records) _ p
      (List.nodup_dedup _) hp ?_ ?_
    · intro q hq hqne
      rw [List.filter_eq_nil_iff]
      intro s hsq
      have := (seqsForPoint_head_len L records q hL s hsq).1
      simp [this]
      exact fun he => hqne (by rw [he])
    · rw [List.filter_eq_self]
      intro s hsp
      have := (seqsForPoint_head_len L records p hL s hsp).1
      simp [this]
  have hcount : (seqsForPoint L records p).length = (groupOf records p).length + 1 - L := by
    unfold seqsForPoint
    rw [if_pos hus, List.length_map, List.length_range,
      List.Perm.length_eq (sortByDate_perm _)]
  refine ⟨by rw [hmain, hcount], ?_, sortByDate_perm _, sortByDate_sorted _⟩
  intro s hsf
  rw [hmain] at hsf
  obtain ⟨_, i, hi, hw⟩ := seqsForPoint_mem_structure L records p s hsf
  exact ⟨(seqsForPoint_head_len L records p hL s hsf).2, i, hi, hw⟩

def recsC4 : List DecRecord :=
  [⟨1, "D3", "CA", 2, []⟩, ⟨1, "D1", "CA", 2, []⟩, ⟨2, "D1", "CA", 2, []⟩,
   ⟨1, "D2", "CA", 2, []⟩, ⟨2, "D2", "CA", 0, []⟩]

/-- Witness for C4: point 1 has 3 CORN records, `L = 2` gives 2 windows. -/
theorem create_sequences_window_count_witness :
    (1:Nat) ≤ 2
    ∧ ((groupOf recsC4 1).map (fun r => r.LABEL)).dedup.length = 1
    ∧ ((create_sequences 2 recsC4).1.filter (fun s => seqPoint s == 1)).length
        = (groupOf recsC4 1).length + 1 - 2 := by
  exact ⟨by decide, by decide,
    (create_sequences_window_count 2 recsC4 1 (by decide) (by decide)).1⟩

/-- C5: a point whose records do not all share one label contributes nothing:
its loop iteration produces no sequences and no labels, and no record of that
point appears in any output sequence. -/
theorem create_sequences_drops_mixed (L : Nat) (records : List DecRecord) (p : Int)
    (hmix : ((groupOf records p).map (fun r => r.LABEL)).dedup.length ≠ 1) :
    seqsForPoint L records p = [] ∧ labsForPoint L records p = []
    ∧ ∀ s ∈ (create_sequences L records).1, ∀ r ∈ s, r.POINT ≠ p := by
  have hu : uniformLabels (groupOf records p) = false := by
    unfold uniformLabels
    rw [Bool.eq_false_iff]
    intro hT
    exact hmix (by simpa using hT)
  have hus : uniformLabels (sortByDate (groupOf records p)) = false := by
    rw [uniformLabels_sortByDate]
    exact hu
  have h1 : seqsForPoint L records p = [] := by
    unfold seqsForPoint
    dsimp only
    rw [hus]
    rfl
  have h2 : labsForPoint L records p = [] := by
    unfold labsForPoint
    dsimp only
    rw [hus]
    rfl
  refine ⟨h1, h2, ?_⟩
  intro s hsm r hr heq
  rcases List.mem_flatMap.mp hsm with ⟨q, hq, hsq⟩
  have hrq := (mem_of_mem_seqsForPoint L records q s r hsq hr).2
  rw [heq] at hrq
  rw [← hrq] at hsq
  rw [h1] at hsq
  cases hsq

def recsC5 : List DecRecord :=
  [⟨2, "D1", "CA", 2, []⟩, ⟨2, "D2", "CA", 0, []⟩, ⟨1, "D1", "CA", 2, []⟩]

/-- Witness for C5: point 2 carries labels CORN and BARLEY, so it is dropped. -/
theorem create_sequences_drops_mixed_witness :
    ((groupOf recsC5 2).map (fun r => r.LABEL)).dedup.length ≠ 1
    ∧ seqsForPoint 1 recsC5 2 = [] ∧ labsForPoint 1 recsC5 2 = [] := by
  have h := create_sequences_drops_mixed 1 recsC5 2 (by decide)
  exact ⟨by decide, h.1, h.2.1⟩

/-! ### Point-disjoint splitter (C1, C2, C3) -/

theorem pickAt_perm {α : Type} (n : Nat) (l : List α) (y : α) (ys : List α)
    (h : pickAt n l = some (y, ys)) : List.Perm l (y :: ys) := by
  induction l generalizing n y ys with
  | nil => simp [pickAt] at h
  | cons x xs ih =>
    cases n with
    | zero =>
      simp only [pickAt, Option.some.injEq, Prod.mk.injEq] at h
      obtain ⟨h1, h2⟩ := h
      subst h1
      subst h2
      exact List.Perm.refl _
    | succ n =>
      simp only [pickAt] at h
      cases hx : pickAt n xs with
      | none => rw [hx] at h; simp at h
      | some yys =>
        obtain ⟨y2, ys2⟩ := yys
        rw [hx] at h
        simp only [Option.map_some', Option.some.injEq, Prod.mk.injEq] at h
        obtain ⟨h1, h2⟩ := h
        subst h2
        rw [← h1]
        exact (List.Perm.cons x (ih n y2 ys2 hx)).trans (List.Perm.swap y2 x ys2)

theorem shuffleGo_perm {α : Type} (fuel : Nat) : ∀ (s : Nat) (xs : List α),
    List.Perm (shuffleGo fuel s xs) xs := by
  induction fuel with
  | zero => intro s xs; exact List.Perm.refl _
  | succ n ih =>
    intro s xs
    simp only [shuffleGo]
    split
    · exact List.Perm.refl _
    · rename_i yys hx
      obtain ⟨y, ys⟩ := yys
      exact (List.Perm.cons y (ih (lcgNext s) ys)).trans (pickAt_perm _ xs y ys hx).symm

theorem shuffle_perm {α : Type} (seed : Nat) (xs : List α) :
    List.Perm (shuffle seed xs) xs :=
  shuffleGo_perm xs.length (lcgNext seed) xs

theorem train_test_split_cover {α : Type} (xs : List α) (tnum tden : Nat) (seed : Nat) (a : α) :
    a ∈ xs ↔ a ∈ (train_test_split xs tnum tden seed).1 ∨ a ∈ (train_test_split xs tnum tden seed).2 := by
  unfold train_test_split
  dsimp only
  constructor
  · intro ha
    have hmem : a ∈ shuffle seed xs := (shuffle_perm seed xs).mem_iff.mpr ha
    rw [← List.take_append_drop (ceilFrac tnum tden xs.length) (shuffle seed xs)] at hmem
    rcases List.mem_append.mp hmem with h | h
    · exact Or.inr h
    · exact Or.inl h
  · intro h
    have hmem : a ∈ shuffle seed xs := by
      rcases h with h | h
      · exact List.drop_subset _ _ h
      · exact List.take_subset _ _ h
    exact (shuffle_perm seed xs).mem_iff.mp hmem

theorem train_test_split_nodup {α : Type} (xs : List α) (tnum tden : Nat) (seed : Nat) (h : xs.Nodup) :
    (train_test_split xs tnum tden seed).1.Nodup ∧ (train_test_split xs tnum tden seed).2.Nodup
    ∧ (train_test_split xs tnum tden seed).1.Disjoint (train_test_split xs tnum tden seed).2 := by
  have hs : (shuffle seed xs).Nodup := (shuffle_perm seed xs).nodup_iff.mpr h
  refine ⟨List.Nodup.sublist (List.drop_sublist _ _) hs,
    List.Nodup.sublist (List.take_sublist _ _) hs, ?_⟩
  exact (List.disjoint_take_drop hs (le_refl _)).symm

theorem points_getD (sequences : List (List DecRecord)) (i : Nat) (hi : i < sequences.length) :
    (sequences.map seqPoint).getD i 0 = seqPoint (sequences.getD i []) := by
  rw [List.getD_eq_getElem?_getD, List.getD_eq_getElem?_getD, List.getElem?_map,
    List.getElem?_eq_getElem hi]
  rfl

theorem drawOne_mem (s : Nat) (xs : List Nat) (h : xs ≠ []) : drawOne s xs ∈ xs := by
  unfold drawOne
  have hl : 0 < xs.length := List.length_pos.mpr h
  have hm : s % xs.length < xs.length := Nat.mod_lt _ hl
  rw [List.getD_eq_getElem?_getD, List.getElem?_eq_getElem hm, Option.getD_some]
  exact List.getElem_mem hm

theorem drawMany_mem (k : Nat) : ∀ (s : Nat) (xs : List Nat), xs ≠ [] →
    ∀ i ∈ (drawMany s k xs).1, i ∈ xs := by
  induction k with
  | zero =>
    intro s xs _ i hi
    simp only [drawMany] at hi
    cases hi
  | succ k ih =>
    intro s xs hne i hi
    simp only [drawMany] at hi
    rcases List.mem_cons.mp hi with h | h
    · rw [h]
      exact drawOne_mem s xs hne
    · exact ih (lcgNext s) xs hne i h

theorem classIdxs_subset (idxs : List Nat) (ys : List Int) (c : Int) :
    ∀ i ∈ classIdxs idxs ys c, i ∈ idxs := by
  intro i hi
  rcases List.mem_filterMap.mp hi with ⟨iy, hmem, hval⟩
  by_cases h : iy.2 = c
  · rw [if_pos h] at hval
    cases hval
    exact (List.of_mem_zip hmem).1
  · rw [if_neg h] at hval
    cases hval

theorem zip_self_map (idxs : List Nat) (lab : Nat → Int) :
    idxs.zip (idxs.map lab) = idxs.map (fun j => (j, lab j)) := by
  have h0 := List.zip_map' id lab idxs
  rw [List.map_id] at h0
  exact h0

theorem classIdxs_label (idxs : List Nat) (lab : Nat → Int) (c : Int) :
    ∀ i ∈ classIdxs idxs (idxs.map lab) c, lab i = c := by
  intro i hi
  rcases List.mem_filterMap.mp hi with ⟨iy, hmem, hval⟩
  rw [zip_self_map idxs lab] at hmem
  rcases List.mem_map.mp hmem with ⟨j, _, hj⟩
  by_cases h : iy.2 = c
  · rw [if_pos h] at hval
    cases hval
    rw [← hj] at h ⊢
    exact h
  · rw [if_neg h] at hval
    cases hval

theorem classIdxs_ne_nil (idxs : List Nat) (lab : Nat → Int) (c : Int)
    (hc : c ∈ idxs.map lab) : classIdxs idxs (idxs.map lab) c ≠ [] := by
  rcases List.mem_map.mp hc with ⟨j, hj, hjc⟩
  intro hnil
  have hmem : j ∈ classIdxs idxs (idxs.map lab) c := by
    apply List.mem_filterMap.mpr
    refine ⟨(j, lab j), ?_, ?_⟩
    · rw [zip_self_map idxs lab]
      exact List.mem_map.mpr ⟨j, hj, rfl⟩
    · dsimp only
      rw [if_pos hjc]
  rw [hnil] at hmem
  cases hmem

theorem extrasFor_subset (idxs : List Nat) (ys : List Int) (M : Nat) :
    ∀ (cs : List Int) (s : Nat), (∀ c ∈ cs, classIdxs idxs ys c ≠ []) →
      ∀ i ∈ extrasFor idxs ys M s cs, i ∈ idxs := by
  intro cs
  induction cs with
  | nil =>
    intro s _ i hi
    simp only [extrasFor] at hi
    cases hi
  | cons c cs ih =>
    intro s h i hi
    simp only [extrasFor] at hi
    rcases List.mem_append.mp hi with h1 | h1
    · exact classIdxs_subset idxs ys c i
        (drawMany_mem _ _ _ (h c (List.mem_cons_self c cs)) i h1)
    · exact ih _ (fun c' hc' => h c' (List.mem_cons_of_mem _ hc')) i h1

theorem insertAsc_perm (x : Int) (l : List Int) : List.Perm (insertAsc x l) (x :: l) := by
  induction l with
  | nil => exact List.Perm.refl _
  | cons y ys ih =>
    simp only [insertAsc]
    by_cases h : x ≤ y
    · rw [if_pos h]
    · rw [if_neg h]
      exact (List.Perm.cons y ih).trans (List.Perm.swap x y ys)

theorem sortAsc_perm (l : List Int) : List.Perm (sortAsc l) l := by
  induction l with
  | nil => exact List.Perm.refl _
  | cons x xs ih =>
    show List.Perm (insertAsc x (sortAsc xs)) (x :: xs)
    exact (insertAsc_perm x (sortAsc xs)).trans (List.Perm.cons x ih)

theorem mem_classesOf (ys : List Int) (c : Int) : c ∈ classesOf ys ↔ c ∈ ys := by
  unfold classesOf
  rw [(sortAsc_perm _).mem_iff]
  exact List.mem_dedup

theorem classesOf_nodup (ys : List Int) : (classesOf ys).Nodup := by
  unfold classesOf
  exact (sortAsc_perm _).nodup_iff.mpr (List.nodup_dedup ys)

theorem mem_targetClasses (ys : List Int) (c : Int) (hc : c ∈ targetClasses ys) :
    c ∈ classesOf ys ∧ c ≠ minorityClass ys := by
  unfold targetClasses at hc
  have hmf := (sortAsc_perm _).subset hc
  rw [List.mem_filter] at hmf
  refine ⟨hmf.1, ?_⟩
  have := hmf.2
  simpa using this

/-- The train point partition of `split_dataset`. -/
def trainPoints (tnum tden vnum vden : Nat) (points : List Int) : List Int :=
  (split_points tnum tden vnum vden points).1

/-- The validation point partition of `split_dataset`. -/
def valPoints (tnum tden vnum vden : Nat) (points : List Int) : List Int :=
  (split_points tnum tden vnum vden points).2.1

/-- The test point partition of `split_dataset`. -/
def testPoints (tnum tden vnum vden : Nat) (points : List Int) : List Int :=
  (split_points tnum tden vnum vden points).2.2

theorem split_dataset_train_shape (g : Nat) (tnum tden vnum vden : Nat)
    (sequences : List (List DecRecord)) (labels : List Int) :
    (split_dataset g tnum tden vnum vden sequences labels).1
      = (resampledIndices g tnum tden vnum vden sequences labels).map
          (fun i => sequences.getD i []) := rfl

theorem split_dataset_ytrain_shape (g : Nat) (tnum tden vnum vden : Nat)
    (sequences : List (List DecRecord)) (labels : List Int) :
    (split_dataset g tnum tden vnum vden sequences labels).2.1
      = (resampledIndices g tnum tden vnum vden sequences labels).map
          (fun i => labels.getD i 0) := rfl

theorem split_dataset_val_shape (g : Nat) (tnum tden vnum vden : Nat)
    (sequences : List (List DecRecord)) (labels : List Int) :
    (split_dataset g tnum tden vnum vden sequences labels).2.2.1
      = ((List.range sequences.length).filter (fun i =>
          decide ((sequences.map seqPoint).getD i 0
            ∈ (split_points tnum tden vnum vden (sequences.map seqPoint)).2.1))).map
          (fun i => sequences.getD i []) := rfl

theorem split_dataset_test_shape (g : Nat) (tnum tden vnum vden : Nat)
    (sequences : List (List DecRecord)) (labels : List Int) :
    (split_dataset g tnum tden vnum vden sequences labels).2.2.2.2.1
      = ((List.range sequences.length).filter (fun i =>
          decide ((sequences.map seqPoint).getD i 0
            ∈ (split_points tnum tden vnum vden (sequences.map seqPoint)).2.2))).map
          (fun i => sequences.getD i []) := rfl

theorem mem_trainIndices (tnum tden vnum vden : Nat) (sequences : List (List DecRecord)) (i : Nat)
    (hi : i ∈ trainIndices tnum tden vnum vden sequences) :
    i < sequences.length
    ∧ seqPoint (sequences.getD i [])
        ∈ (split_points tnum tden vnum vden (sequences.map seqPoint)).1 := by
  unfold trainIndices at hi
  dsimp only at hi
  rw [List.mem_filter, List.mem_range] at hi
  obtain ⟨h1, h2⟩ := hi
  rw [decide_eq_true_eq] at h2
  rw [points_getD sequences i h1] at h2
  exact ⟨h1, h2⟩

theorem resampledIndices_subset (g : Nat) (tnum tden vnum vden : Nat)
    (sequences : List (List DecRecord)) (labels : List Int) :
    ∀ i ∈ resampledIndices g tnum tden vnum vden sequences labels,
      i ∈ trainIndices tnum tden vnum vden sequences := by
  intro i hi
  unfold resampledIndices at hi
  dsimp only at hi
  unfold oversampleIndices at hi
  rcases List.mem_append.mp hi with h | h
  · exact h
  · refine extrasFor_subset _ _ _ _ _ ?_ i h
    intro c hc
    have hcm := (mem_targetClasses _ c hc).1
    have hys : c ∈ (trainIndices tnum tden vnum vden sequences).map (fun i => labels.getD i 0) :=
      (mem_classesOf _ _).mp hcm
    exact classIdxs_ne_nil _ (fun i => labels.getD i 0) c hys

/-- C1: the three point-id partitions are pairwise disjoint duplicate-free
lists whose union is exactly the set of point ids referenced by the input
sequences, and every sequence returned by `split_dataset` — in the oversampled
train output as well as in the validation and test outputs — has its point id
in its own partition's point set, so no point id contributes sequences to more
than one partition. -/
theorem split_dataset_point_disjoint (g : Nat) (tnum tden vnum vden : Nat)
    (sequences : List (List DecRecord)) (labels : List Int) :
    (trainPoints tnum tden vnum vden (sequences.map seqPoint)).Nodup
    ∧ (valPoints tnum tden vnum vden (sequences.map seqPoint)).Nodup
    ∧ (testPoints tnum tden vnum vden (sequences.map seqPoint)).Nodup
    ∧ (trainPoints tnum tden vnum vden (sequences.map seqPoint)).Disjoint
        (valPoints tnum tden vnum vden (sequences.map seqPoint))
    ∧ (trainPoints tnum tden vnum vden (sequences.map seqPoint)).Disjoint
        (testPoints tnum tden vnum vden (sequences.map seqPoint))
    ∧ (valPoints tnum tden vnum vden (sequences.map seqPoint)).Disjoint
        (testPoints tnum tden vnum vden (sequences.map seqPoint))
    ∧ (∀ q : Int, q ∈ sequences.map seqPoint ↔
        (q ∈ trainPoints tnum tden vnum vden (sequences.map seqPoint)
          ∨ q ∈ valPoints tnum tden vnum vden (sequences.map seqPoint)
          ∨ q ∈ testPoints tnum tden vnum vden (sequences.map seqPoint)))
    ∧ (∀ s ∈ (split_dataset g tnum tden vnum vden sequences labels).1,
        seqPoint s ∈ trainPoints tnum tden vnum vden (sequences.map seqPoint))
    ∧ (∀ s ∈ (split_dataset g tnum tden vnum vden sequences labels).2.2.1,
        seqPoint s ∈ valPoints tnum tden vnum vden (sequences.map seqPoint))
    ∧ (∀ s ∈ (split_dataset g tnum tden vnum vden sequences labels).2.2.2.2.1,
        seqPoint s ∈ testPoints tnum tden vnum vden (sequences.map seqPoint)) := by
  have hup : (sequences.map seqPoint).dedup.Nodup := List.nodup_dedup _
  have h1 := train_test_split_nodup (sequences.map seqPoint).dedup tnum tden 42 hup
  have h2 := train_test_split_nodup
    (train_test_split (sequences.map seqPoint).dedup tnum tden 42).1
    (vnum * tden) (vden * (tden - tnum)) 42 h1.1
  have hsubT : ∀ a, a ∈ trainPoints tnum tden vnum vden (sequences.map seqPoint) →
      a ∈ (train_test_split (sequences.map seqPoint).dedup tnum tden 42).1 :=
    fun a ha => (train_test_split_cover _ _ _ 42 a).mpr (Or.inl ha)
  have hsubV : ∀ a, a ∈ valPoints tnum tden vnum vden (sequences.map seqPoint) →
      a ∈ (train_test_split (sequences.map seqPoint).dedup tnum tden 42).1 :=
    fun a ha => (train_test_split_cover _ _ _ 42 a).mpr (Or.inr ha)
  refine ⟨h2.1, h2.2.1, h1.2.1, h2.2.2, ?_, ?_, ?_, ?_, ?_, ?_⟩
  · exact fun a haT haS => h1.2.2 (hsubT a haT) haS
  · exact fun a haV haS => h1.2.2 (hsubV a haV) haS
  · intro q
    show q ∈ sequences.map seqPoint ↔ _
    unfold trainPoints valPoints testPoints split_points
    dsimp only
    rw [← or_assoc]
    rw [← train_test_split_cover
      (train_test_split (sequences.map seqPoint).dedup tnum tden 42).1
      (vnum * tden) (vden * (tden - tnum)) 42 q]
    rw [← train_test_split_cover (sequences.map seqPoint).dedup tnum tden 42 q]
    exact List.mem_dedup.symm
  · intro s hs
    rw [split_dataset_train_shape] at hs
    rcases List.mem_map.mp hs with ⟨i, hir, rfl⟩
    have hti := resampledIndices_subset g tnum tden vnum vden sequences labels i hir
    exact (mem_trainIndices tnum tden vnum vden sequences i hti).2
  · intro s hs
    rw [split_dataset_val_shape] at hs
    rcases List.mem_map.mp hs with ⟨i, hif, rfl⟩
    rw [List.mem_filter, List.mem_range] at hif
    obtain ⟨hilt, hdec⟩ := hif
    rw [decide_eq_true_eq, points_getD sequences i hilt] at hdec
    exact hdec
  · intro s hs
    rw [split_dataset_test_shape] at hs
    rcases List.mem_map.mp hs with ⟨i, hif, rfl⟩
    rw [List.mem_filter, List.mem_range] at hif
    obtain ⟨hilt, hdec⟩ := hif
    rw [decide_eq_true_eq, points_getD sequences i hilt] at hdec
    exact hdec

theorem le_foldl_max (f : Int → Nat) (l : List Int) : ∀ b : Nat,
    b ≤ l.foldl (fun m c => max m (f c)) b
    ∧ ∀ x ∈ l, f x ≤ l.foldl (fun m c => max m (f c)) b := by
  induction l with
  | nil => exact fun b => ⟨le_refl b, fun x hx => absurd hx (List.not_mem_nil x)⟩
  | cons c cs ih =>
    intro b
    constructor
    · exact le_trans (le_max_left b (f c)) (ih (max b (f c))).1
    · intro x hx
      rcases List.mem_cons.mp hx with h | h
      · rw [h]
        exact le_trans (le_max_right b (f c)) (ih (max b (f c))).1
      · exact (ih (max b (f c))).2 x h

theorem count_le_majorityCount (ys : List Int) (c : Int) (hc : c ∈ classesOf ys) :
    ys.count c ≤ majorityCount ys := by
  unfold majorityCount
  exact (le_foldl_max (fun c => ys.count c) (classesOf ys) 0).2 c hc

theorem drawMany_len (k : Nat) : ∀ (s : Nat) (xs : List Nat), (drawMany s k xs).1.length = k := by
  induction k with
  | zero => intro s xs; rfl
  | succ k ih => intro s xs; simp [drawMany, ih]

theorem count_map_extrasFor (idxs : List Nat) (lab : Nat → Int) (M : Nat) :
    ∀ (cs : List Int) (s : Nat) (c : Int), cs.Nodup →
      (∀ c' ∈ cs, c' ∈ idxs.map lab) →
      ((extrasFor idxs (idxs.map lab) M s cs).map lab).count c
        = if c ∈ cs then M - (idxs.map lab).count c else 0 := by
  intro cs
  induction cs with
  | nil =>
    intro s c _ _
    simp [extrasFor]
  | cons c0 cs ih =>
    intro s c hnd hcls
    simp only [extrasFor, List.map_append, List.count_append]
    have hne : classIdxs idxs (idxs.map lab) c0 ≠ [] :=
      classIdxs_ne_nil idxs lab c0 (hcls c0 (List.mem_cons_self c0 cs))
    have hblock : ∀ c1 : Int, (((drawMany s (M - (idxs.map lab).count c0)
        (classIdxs idxs (idxs.map lab) c0)).1.map lab)).count c1
        = if c1 = c0 then M - (idxs.map lab).count c0 else 0 := by
      intro c1
      have hall : ∀ y ∈ (drawMany s (M - (idxs.map lab).count c0)
          (classIdxs idxs (idxs.map lab) c0)).1.map lab, y = c0 := by
        intro y hy
        rcases List.mem_map.mp hy with ⟨j, hj, hjy⟩
        rw [← hjy]
        exact classIdxs_label idxs lab c0 j (drawMany_mem _ _ _ hne j hj)
      by_cases h : c1 = c0
      · rw [if_pos h, h]
        rw [List.count_eq_length.mpr (fun b hb => (hall b hb).symm)]
        rw [List.length_map, drawMany_len]
      · rw [if_neg h]
        rw [List.count_eq_zero.mpr]
        intro hy
        exact h (hall c1 hy)
    have hrest := ih ((drawMany s (M - (idxs.map lab).count c0)
        (classIdxs idxs (idxs.map lab) c0)).2) c (List.nodup_cons.mp hnd).2
      (fun c' hc' => hcls c' (List.mem_cons_of_mem c0 hc'))
    rw [hblock c, hrest]
    by_cases hcc : c = c0
    · subst hcc
      have hnotin : c ∉ cs := (List.nodup_cons.mp hnd).1
      simp [hnotin]
    · by_cases hmem : c ∈ cs
      · simp [hcc, hmem]
      · simp [hcc, hmem]

theorem targetClasses_nodup (ys : List Int) : (targetClasses ys).Nodup := by
  unfold targetClasses
  exact (sortAsc_perm _).nodup_iff.mpr (List.Nodup.filter _ (classesOf_nodup ys))

theorem mem_targetClasses_of (ys : List Int) (c : Int) (hc : c ∈ classesOf ys)
    (hne : c ≠ minorityClass ys) : c ∈ targetClasses ys := by
  unfold targetClasses
  apply (sortAsc_perm _).mem_iff.mpr
  apply List.mem_filter.mpr
  exact ⟨hc, by simpa using hne⟩

theorem oversample_counts (idxs : List Nat) (lab : Nat → Int) (g : Nat) :
    (∀ c ∈ classesOf (idxs.map lab), c ≠ minorityClass (idxs.map lab) →
      ((oversampleIndices g idxs (idxs.map lab)).map lab).count c
        = majorityCount (idxs.map lab))
    ∧ ((oversampleIndices g idxs (idxs.map lab)).map lab).count
          (minorityClass (idxs.map lab))
        = (idxs.map lab).count (minorityClass (idxs.map lab)) := by
  have hcls : ∀ c' ∈ targetClasses (idxs.map lab), c' ∈ idxs.map lab :=
    fun c' hc' => (mem_classesOf _ _).mp (mem_targetClasses _ c' hc').1
  constructor
  · intro c hc hne
    unfold oversampleIndices
    rw [List.map_append, List.count_append]
    rw [count_map_extrasFor idxs lab (majorityCount (idxs.map lab))
      (targetClasses (idxs.map lab)) g c (targetClasses_nodup _) hcls]
    rw [if_pos (mem_targetClasses_of _ c hc hne)]
    have hle := count_le_majorityCount (idxs.map lab) c hc
    omega
  · unfold oversampleIndices
    rw [List.map_append, List.count_append]
    rw [count_map_extrasFor idxs lab (majorityCount (idxs.map lab))
      (targetClasses (idxs.map lab)) g _ (targetClasses_nodup _) hcls]
    rw [if_neg (fun hmem => (mem_targetClasses _ _ hmem).2 rfl)]
    omega

/-- C2 (amended): after oversampling, every label present in the pre-oversample
train partition except the minority label has count exactly M (the maximum
per-label pre-oversample train count) in the returned training labels, while
the minority label — the label of least train count, the smallest label
winning ties, which `'not minority'` excludes from resampling — keeps its
pre-oversample count; every resampled index is one of the train indices (so it
refers to a train sequence and its returned label is that sequence's original
label); and the validation and test outputs do not depend on the oversampler
RNG state (they are returned unmodified, with no oversampling). -/
theorem split_dataset_oversample_counts (g : Nat) (tnum tden vnum vden : Nat)
    (sequences : List (List DecRecord)) (labels : List Int) :
    (∀ c ∈ classesOf ((trainIndices tnum tden vnum vden sequences).map
        (fun i => labels.getD i 0)),
      c ≠ minorityClass ((trainIndices tnum tden vnum vden sequences).map
        (fun i => labels.getD i 0)) →
      ((split_dataset g tnum tden vnum vden sequences labels).2.1).count c
        = majorityCount ((trainIndices tnum tden vnum vden sequences).map
            (fun i => labels.getD i 0)))
    ∧ ((split_dataset g tnum tden vnum vden sequences labels).2.1).count
          (minorityClass ((trainIndices tnum tden vnum vden sequences).map
            (fun i => labels.getD i 0)))
        = ((trainIndices tnum tden vnum vden sequences).map (fun i => labels.getD i 0)).count
            (minorityClass ((trainIndices tnum tden vnum vden sequences).map
              (fun i => labels.getD i 0)))
    ∧ (∀ i ∈ resampledIndices g tnum tden vnum vden sequences labels,
        i ∈ trainIndices tnum tden vnum vden sequences)
    ∧ (∀ g2 : Nat, (split_dataset g tnum tden vnum vden sequences labels).2.2
        = (split_dataset g2 tnum tden vnum vden sequences labels).2.2) := by
  have h := oversample_counts (trainIndices tnum tden vnum vden sequences)
    (fun i => labels.getD i 0) g
  refine ⟨?_, ?_, resampledIndices_subset g tnum tden vnum vden sequences labels,
    fun g2 => rfl⟩
  · intro c hc hne
    rw [split_dataset_ytrain_shape]
    exact h.1 c hc hne
  · rw [split_dataset_ytrain_shape]
    exact h.2

def seqsC1 : List (List DecRecord) :=
  (List.range 6).map (fun i => [⟨(i : Int), "D1", "CA", 0, []⟩])

/-- Witness for C1 on six singleton sequences with the source's fractions. -/
theorem split_dataset_point_disjoint_witness :
    (trainPoints 3 10 15 100 (seqsC1.map seqPoint)).Disjoint
        (valPoints 3 10 15 100 (seqsC1.map seqPoint))
    ∧ ((0 : Int) ∈ seqsC1.map seqPoint ↔
        ((0 : Int) ∈ trainPoints 3 10 15 100 (seqsC1.map seqPoint)
          ∨ (0 : Int) ∈ valPoints 3 10 15 100 (seqsC1.map seqPoint)
          ∨ (0 : Int) ∈ testPoints 3 10 15 100 (seqsC1.map seqPoint))) := by
  have h := split_dataset_point_disjoint 0 3 10 15 100 seqsC1 (List.replicate 6 0)
  exact ⟨h.2.2.2.1, h.2.2.2.2.2.2.1 0⟩

def seqsC2 : List (List DecRecord) :=
  (List.range 6).map (fun i => [⟨(i : Int), "D1", "CA", 0, []⟩])

def labsC2 : List Int := [0, 0, 0, 0, 1, 1]

/-- The pre-oversample training labels of the C2 example. -/
def ysC2 : List Int :=
  (trainIndices 3 10 15 100 seqsC2).map (fun i => labsC2.getD i 0)

/-- C2 counterexample: on six singleton sequences the train partition carries
labels [0, 0, 1]; label 1 is present in train, the maximum per-label train
count is 2, yet label 1 still has count 1 after oversampling (the minority
class is excluded by `sampling_strategy='not minority'`), so it is false that
every train label reaches count M. -/
theorem oversample_not_balanced_to_max :
    (1 : Int) ∈ classesOf ysC2
    ∧ majorityCount ysC2 = 2
    ∧ ((split_dataset 0 3 10 15 100 seqsC2 labsC2).2.1).count 1 = 1
    ∧ ¬ (∀ c ∈ classesOf ysC2,
        ((split_dataset 0 3 10 15 100 seqsC2 labsC2).2.1).count c
          = majorityCount ysC2) := by
  refine ⟨by decide, by decide, by decide, ?_⟩
  intro h
  have h1 := h 1 (by decide)
  have e1 : ((split_dataset 0 3 10 15 100 seqsC2 labsC2).2.1).count 1 = 1 := by decide
  have e2 : majorityCount ysC2 = 2 := by decide
  rw [e1, e2] at h1
  exact absurd h1 (by decide)

/-- Witness for amended C2: label 0 is a non-minority train label of the C2
example and its oversampled count equals the majority count. -/
theorem split_dataset_oversample_counts_witness :
    (0 : Int) ∈ classesOf ysC2
    ∧ (0 : Int) ≠ minorityClass ysC2
    ∧ ((split_dataset 0 3 10 15 100 seqsC2 labsC2).2.1).count 0 = majorityCount ysC2 := by
  have h := split_dataset_oversample_counts 0 3 10 15 100 seqsC2 labsC2
  exact ⟨by decide, by decide, h.1 0 (by decide) (by decide)⟩

def seqsC3 : List (List DecRecord) :=
  (List.range 12).map (fun i => [⟨(i : Int), "D1", "CA", 0, []⟩])

def labsC3 : List Int := [0, 0, 0, 0, 0, 0, 0, 0, 1, 1, 2, 0]

/-- C3: with identical explicit inputs (sequences, labels, fractions, and the
hardcoded seed 42 inside `split_points`), two invocations under different
global RNG states produce different oversampled index multisets and different
oversampled training outputs, while the validation/test outputs — the only
parts whose randomness comes from the seeded splits — coincide for all states:
the oversampler draws from unseeded global state. -/
theorem oversampler_depends_on_global_rng :
    Multiset.ofList (resampledIndices 0 3 10 15 100 seqsC3 labsC3)
      ≠ Multiset.ofList (resampledIndices 1 3 10 15 100 seqsC3 labsC3)
    ∧ (split_dataset 0 3 10 15 100 seqsC3 labsC3).1
      ≠ (split_dataset 1 3 10 15 100 seqsC3 labsC3).1
    ∧ ∀ g1 g2 : Nat, (split_dataset g1 3 10 15 100 seqsC3 labsC3).2.2
      = (split_dataset g2 3 10 15 100 seqsC3 labsC3).2.2 := by
  exact ⟨by decide, by decide, fun g1 g2 => rfl⟩
